import Mathlib

/-!
# Verification of the pagination and error-normalization core of
# `atlassian-python-api`

Shallow embedding of:
* `BitbucketCloudBase._get_paged` and `BitbucketCloudBase.raise_for_status`
  (src/atlassian/bitbucket/cloud/base.py),
* `Jira._get_paged` and `Jira.enhanced_jql_get_list_of_tickets`
  (src/atlassian/jira.py).

The external HTTP transport (`AtlassianRestAPI.get`, the `cloud` flag and the
`requests` library) is not part of the two source files; following the spec's
§6 it is modelled as an interface: a server is a function from the request
index to the decoded response, and the fetchers record every request they
build so that claims about "requests issued" are statable.

Python generators are lazy; the embedding runs a generator to completion
(bounded by an explicit `fuel` for the `while True` loops) and returns the
list of requests issued, the list of items yielded in order, and the final
mutable state.  Python `dict`s are insertion-ordered association lists;
in-place mutation becomes explicit state passing.
-/

set_option autoImplicit false

namespace Atlassian

/-- Decoded JSON values (result of `response.json()` / transport decoding). -/
inductive Json where
  | null : Json
  | bool : Bool → Json
  | num : Int → Json
  | str : String → Json
  | arr : List Json → Json
  | obj : List (String × Json) → Json

/-- Python truthiness of a decoded JSON value (`if x:`). -/
def Json.truthy : Json → Bool
  | .null => false
  | .bool b => b
  | .num n => n != 0
  | .str s => s != ""
  | .arr xs => !xs.isEmpty
  | .obj kvs => !kvs.isEmpty

/-- Python `str()` applied to a decoded JSON value.  Vendor error messages
and details are strings, and only the `str` case matters below; scalar cases
follow Python's rendering, container renderings are abstract placeholders. -/
def Json.pyStr : Json → String
  | .null => "None"
  | .bool b => if b then "True" else "False"
  | .num n => toString n
  | .str s => s
  | .arr _ => "<list>"
  | .obj _ => "<dict>"

/-- `d[k]` / `d.get(k)` lookup in an insertion-ordered Python dict. -/
def dictGet : List (String × Json) → String → Option Json
  | [], _ => none
  | p :: t, k => if p.1 = k then some p.2 else dictGet t k

/-- `d[k] = v` on an insertion-ordered Python dict: replace in place if the
key exists (keeping its position), otherwise append at the end.  Python dicts
never hold a key twice, so replacing the first occurrence is exact. -/
def dictSet : List (String × Json) → String → Json → List (String × Json)
  | [], k, v => [(k, v)]
  | p :: t, k, v => if p.1 = k then (k, v) :: t else p :: dictSet t k v

/-- A single HTTP request as handed to the transport's `get`:
`get(url, trailing=trailing, params=params, data=data, flags=flags,
absolute=absolute)`. -/
structure Request where
  url : String
  params : List (String × Json)
  data : Option Json
  flags : Option (List String)
  trailing : Option Bool
  absolute : Bool

/-! ## Link-based pagination: `BitbucketCloudBase._get_paged` -/

/-- Decoded Bitbucket Cloud page envelope.  `values` is
`response.get("values", [])` (an absent field decodes to `[]`), `next` is
`response.get("next")`. -/
structure LinkPage where
  values : List String
  next : Option String
deriving DecidableEq

/-- Mutable state of the Bitbucket generator's loop: the `url`, `params`,
`trailing` and `absolute` locals that the loop reassigns. -/
structure BBState where
  url : String
  params : List (String × Json)
  trailing : Option Bool
  absolute : Bool

/-- `params["page"] += 1`.  Inside `_get_paged` with `paging_workaround` the
key is always present and numeric (it is set to `1` before the loop); the
fallback arm models the `KeyError`/`TypeError` Python would raise otherwise
and is unreachable in the contexts proved below. -/
def pageIncr (d : List (String × Json)) : List (String × Json) :=
  match dictGet d "page" with
  | some (.num n) => dictSet d "page" (.num (n + 1))
  | _ => d

/-- The request built from the current loop state: the source's
`super().get(url, trailing=trailing, params=params, data=data, flags=flags,
absolute=absolute)`. -/
def mkReq (st : BBState) (data : Option Json) (flags : Option (List String)) :
    Request :=
  { url := st.url, params := st.params, data := data, flags := flags,
    trailing := st.trailing, absolute := st.absolute }

/-- The loop state after following a `next`/`nextPage` URL `u`: the
server-provided URL is used verbatim (`absolute = True`), with no extra
query parameters (`params = {}`) and no trailing-slash normalization
(`trailing = False`). -/
def contState (u : String) : BBState :=
  { url := u, params := [], trailing := some false, absolute := true }

/-- The `while True:` loop of `BitbucketCloudBase._get_paged`, run to
completion.  `server i` is the decoded response to the `i`-th request of this
generator run; `fuel` bounds the number of iterations (each concrete claim
picks enough fuel).  Returns the requests issued, the values yielded in
order, and the final loop state. -/
def bbLoop (server : Nat → LinkPage) (paging_workaround : Bool)
    (data : Option Json) (flags : Option (List String)) :
    Nat → Nat → BBState → List Request × List String × BBState
  | 0, _, st => ([], [], st)
  | fuel + 1, i, st =>
    let response := server i
    if response.values.length = 0 then
      ([mkReq st data flags], [], st)
    else if paging_workaround = true then
      let st' := { st with params := pageIncr st.params }
      let rest := bbLoop server paging_workaround data flags fuel (i + 1) st'
      (mkReq st data flags :: rest.1, response.values ++ rest.2.1, rest.2.2)
    else
      match response.next with
      | none => ([mkReq st data flags], response.values, st)
      | some u =>
        let rest :=
          bbLoop server paging_workaround data flags fuel (i + 1) (contState u)
        (mkReq st data flags :: rest.1, response.values ++ rest.2.1, rest.2.2)

/-- `BitbucketCloudBase._get_paged`, run to completion.  `params?` is the
caller's `params` argument (`none` for the Python default `None`). -/
def bb_get_paged (server : Nat → LinkPage) (url : String)
    (params? : Option (List (String × Json))) (data : Option Json)
    (flags : Option (List String)) (trailing : Option Bool) (absolute : Bool)
    (paging_workaround : Bool) (fuel : Nat) :
    List Request × List String × BBState :=
  let params := params?.getD []
  let params :=
    if paging_workaround then dictSet params "page" (.num 1) else params
  bbLoop server paging_workaround data flags fuel 0
    { url := url, params := params, trailing := trailing, absolute := absolute }

/-! ## Offset-based pagination: `Jira._get_paged` -/

/-- Decoded Jira Cloud offset-based page envelope: `values` is
`response.get("values", [])`, `isLast` is `response.get("isLast", False)`,
`nextPage` is `response.get("nextPage")`. -/
structure OffsetPage where
  values : List String
  isLast : Bool
  nextPage : Option String
deriving DecidableEq

/-- Errors raised by the embedded Python code. -/
inductive PyError where
  | valueError : String → PyError
  | httpError : String → PyError
deriving DecidableEq

/-- Result of running a fetcher to completion: the requests that reached the
transport, the items produced, and the error raised (if any). -/
structure FetchResult where
  requests : List Request
  items : List String
  error : Option PyError

/-- The `while True:` loop of `Jira._get_paged` (cloud branch), run to
completion.  The loop state reuses `BBState` (the same four locals `url`,
`params`, `trailing`, `absolute` are reassigned). -/
def jiraLoop (server : Nat → OffsetPage) (data : Option Json)
    (flags : Option (List String)) :
    Nat → Nat → BBState → List Request × List String
  | 0, _, _ => ([], [])
  | fuel + 1, i, st =>
    let response := server i
    let values := response.values
    if response.isLast = true ∨ values.length = 0 then
      ([mkReq st data flags], values)
    else
      match response.nextPage with
      | none => ([mkReq st data flags], values)
      | some u =>
        let rest := jiraLoop server data flags fuel (i + 1) (contState u)
        (mkReq st data flags :: rest.1, values ++ rest.2)

/-- `Jira._get_paged`, run to completion.  `cloud` is the platform flag of
the shared rest client (spec §6); on a non-Cloud client the method raises
`ValueError` before any request is issued. -/
def jira_get_paged (cloud : Bool) (server : Nat → OffsetPage) (url : String)
    (params? : Option (List (String × Json))) (data : Option Json)
    (flags : Option (List String)) (trailing : Option Bool) (absolute : Bool)
    (fuel : Nat) : FetchResult :=
  if cloud then
    let r := jiraLoop server data flags fuel 0
      { url := url, params := params?.getD [], trailing := trailing,
        absolute := absolute }
    { requests := r.1, items := r.2, error := none }
  else
    { requests := [], items := [],
      error := some (.valueError
        "``_get_paged`` method is only available for Jira Cloud platform") }

/-! ## Token-based pagination: `Jira.enhanced_jql_get_list_of_tickets` -/

/-- Decoded response of the enhanced JQL search endpoint.  `issues` is
`response["issues"]`, `nextPageToken` is `response.get("nextPageToken")`. -/
structure TokenPage where
  issues : List String
  nextPageToken : Option String
deriving DecidableEq

/-- Python truthiness of the `next_page_token` local
(`if not next_page_token`): `None` and the empty string are falsy. -/
def tokenTruthy : Option String → Bool
  | none => false
  | some t => t != ""

/-- The `while True:` loop of `enhanced_jql_get_list_of_tickets`, run to
completion.  `server i` is the decoded response to the `i`-th request
(`none` models a falsy response such as `None` or `{}`, on which the loop
breaks).  State threaded: `params` (mutated in place by
`params["nextPageToken"] = next_page_token`), the `next_page_token` local,
and the `results` accumulator. -/
def ejqlLoop (server : Nat → Option TokenPage) (url : String)
    (limit : Option Nat) :
    Nat → Nat → List (String × Json) → Option String → List String →
    List Request × List String
  | 0, _, _, _, results => ([], results)
  | fuel + 1, i, params, tok, results =>
    let params :=
      match tok with
      | some t => dictSet params "nextPageToken" (.str t)
      | none => params
    let req : Request :=
      { url := url, params := params, data := none, flags := none,
        trailing := none, absolute := false }
    match server i with
    | none => ([req], results)
    | some response =>
      let results := results ++ response.issues
      let tok' := response.nextPageToken
      if !tokenTruthy tok' ||
          (match limit with
           | some l => decide (l ≤ results.length)
           | none => false) then
        ([req], results)
      else
        let rest := ejqlLoop server url limit fuel (i + 1) params tok' results
        (req :: rest.1, rest.2)

/-- `Jira.enhanced_jql_get_list_of_tickets`, run to completion.  `fields` is
the already-joined fields string (the source joins list arguments with ","
first; the default is `"*all"`).  `url` stands for
`self.resource_url("search/jql")`, computed by the shared rest client, which
is outside the two source files. -/
def enhanced_jql_get_list_of_tickets (cloud : Bool)
    (server : Nat → Option TokenPage) (url : String) (jql : String)
    (fields : String) (limit : Option Nat) (expand : Option String)
    (fuel : Nat) : FetchResult :=
  if cloud then
    let params : List (String × Json) :=
      (match limit with
       | some l => [("maxResults", Json.num l)]
       | none => []) ++
      [("fields", Json.str fields), ("jql", Json.str jql)] ++
      (match expand with
       | some e => [("expand", Json.str e)]
       | none => [])
    let r := ejqlLoop server url limit fuel 0 params none []
    { requests := r.1, items := r.2, error := none }
  else
    { requests := [], items := [],
      error := some (.valueError
        "``enhanced_jql_get_list_of_tickets`` is only available for Jira Cloud.") }

/-! ## Error normalization: `BitbucketCloudBase.raise_for_status` -/

/-- An HTTP response as seen by `raise_for_status`.  `body` is the outcome of
`response.json()`: `none` models a body that cannot be decoded (the call
raises), `some j` the decoded value. -/
structure HttpResponse where
  status_code : Nat
  body : Option Json

/-- Outcome of `raise_for_status`. -/
inductive RaiseOutcome where
  /-- `raise HTTPError(error_msg, response=response)`: the normalized error,
  carrying the composed message and the original response. -/
  | normalized : Json → HttpResponse → RaiseOutcome
  /-- `response.raise_for_status()` raised the transport's generic HTTP
  error. -/
  | fallback : RaiseOutcome
  /-- `response.raise_for_status()` returned normally (healthy status). -/
  | returned : RaiseOutcome

/-- Modelled from the spec: the transport's standard raise-on-error behavior
(`requests.Response.raise_for_status`, §4.2 step 1/3, §7 "HTTPError (generic
fallback)") — it raises exactly when the status code is in `[400, 600)` and
returns normally otherwise.  The `requests` library is an external
collaborator, not part of the two source files. -/
def transportRaiseForStatus (status : Nat) : RaiseOutcome :=
  if 400 ≤ status ∧ status < 600 then .fallback else .returned

/-- The `try:` block of `raise_for_status`: `j = response.json()`,
`e = j["error"]`, `error_msg = e["message"]`, then append a truthy
`e.get("detail")` via f-string interpolation.  Returns `some` of the composed
message if no step raises, `none` if any step raises (decode failure, a
non-object where indexing is attempted, a missing key). -/
def extractErrorMsg (body : Option Json) : Option Json :=
  match body with
  | some (.obj j) =>
    match dictGet j "error" with
    | some (.obj e) =>
      match dictGet e "message" with
      | some msg =>
        match dictGet e "detail" with
        | some d =>
          if d.truthy then some (.str (msg.pyStr ++ "\n" ++ d.pyStr))
          else some msg
        | none => some msg
      | none => none
    | _ => none
  | _ => none

/-- `BitbucketCloudBase.raise_for_status`. -/
def raise_for_status (response : HttpResponse) : RaiseOutcome :=
  if 400 ≤ response.status_code ∧ response.status_code < 600 then
    match extractErrorMsg response.body with
    | some msg => .normalized msg response
    | none => transportRaiseForStatus response.status_code
  else
    transportRaiseForStatus response.status_code

/-! ## Helper lemmas -/

/-- One step of the Bitbucket loop on an empty page: return at once. -/
lemma bbLoop_succ_empty {server : Nat → LinkPage} {w : Bool}
    {data : Option Json} {flags : Option (List String)} {fuel i : Nat}
    {st : BBState} (h : (server i).values.length = 0) :
    bbLoop server w data flags (fuel + 1) i st =
      ([mkReq st data flags], [], st) := by
  simp only [bbLoop]
  rw [if_pos h]

/-- One step of the Bitbucket loop on a non-empty page with the paging
workaround: increment `params["page"]` and continue. -/
lemma bbLoop_succ_workaround {server : Nat → LinkPage} {data : Option Json}
    {flags : Option (List String)} {fuel i : Nat} {st : BBState}
    (h : ¬ (server i).values.length = 0) :
    bbLoop server true data flags (fuel + 1) i st =
      (mkReq st data flags ::
          (bbLoop server true data flags fuel (i + 1)
            { st with params := pageIncr st.params }).1,
        (server i).values ++
          (bbLoop server true data flags fuel (i + 1)
            { st with params := pageIncr st.params }).2.1,
        (bbLoop server true data flags fuel (i + 1)
          { st with params := pageIncr st.params }).2.2) := by
  simp only [bbLoop]
  rw [if_neg h, if_pos trivial]

/-- One step of the Bitbucket loop on a non-empty page without workaround and
without a `next` URL: yield the values and break. -/
lemma bbLoop_succ_none {server : Nat → LinkPage} {data : Option Json}
    {flags : Option (List String)} {fuel i : Nat} {st : BBState}
    (h : ¬ (server i).values.length = 0) (hn : (server i).next = none) :
    bbLoop server false data flags (fuel + 1) i st =
      ([mkReq st data flags], (server i).values, st) := by
  simp only [bbLoop]
  rw [if_neg h, if_neg (by simp), hn]

/-- One step of the Bitbucket loop on a non-empty page without workaround,
following the server-provided `next` URL with a continuation state. -/
lemma bbLoop_succ_next {server : Nat → LinkPage} {data : Option Json}
    {flags : Option (List String)} {fuel i : Nat} {st : BBState} {u : String}
    (h : ¬ (server i).values.length = 0) (hn : (server i).next = some u) :
    bbLoop server false data flags (fuel + 1) i st =
      (mkReq st data flags ::
          (bbLoop server false data flags fuel (i + 1) (contState u)).1,
        (server i).values ++
          (bbLoop server false data flags fuel (i + 1) (contState u)).2.1,
        (bbLoop server false data flags fuel (i + 1) (contState u)).2.2) := by
  simp only [bbLoop]
  rw [if_neg h, if_neg (by simp), hn]

/-- One step of the offset-based loop when the stopping condition holds:
yield the current values and break. -/
lemma jiraLoop_succ_stop {server : Nat → OffsetPage} {data : Option Json}
    {flags : Option (List String)} {fuel i : Nat} {st : BBState}
    (h : (server i).isLast = true ∨ (server i).values.length = 0) :
    jiraLoop server data flags (fuel + 1) i st =
      ([mkReq st data flags], (server i).values) := by
  simp only [jiraLoop]
  rw [if_pos h]

/-- One step of the offset-based loop when the stopping condition fails but
`nextPage` is absent: yield the current values and break. -/
lemma jiraLoop_succ_none {server : Nat → OffsetPage} {data : Option Json}
    {flags : Option (List String)} {fuel i : Nat} {st : BBState}
    (h : ¬ ((server i).isLast = true ∨ (server i).values.length = 0))
    (hn : (server i).nextPage = none) :
    jiraLoop server data flags (fuel + 1) i st =
      ([mkReq st data flags], (server i).values) := by
  simp only [jiraLoop]
  rw [if_neg h, hn]

/-- One step of the offset-based loop when the stopping condition fails and
`nextPage` is present: follow it with a continuation state. -/
lemma jiraLoop_succ_cont {server : Nat → OffsetPage} {data : Option Json}
    {flags : Option (List String)} {fuel i : Nat} {st : BBState} {u : String}
    (h : ¬ ((server i).isLast = true ∨ (server i).values.length = 0))
    (hn : (server i).nextPage = some u) :
    jiraLoop server data flags (fuel + 1) i st =
      (mkReq st data flags ::
          (jiraLoop server data flags fuel (i + 1) (contState u)).1,
        (server i).values ++
          (jiraLoop server data flags fuel (i + 1) (contState u)).2) := by
  simp only [jiraLoop]
  rw [if_neg h, hn]

/-- A continuation request: absolute URL, no extra query parameters, no
trailing-slash normalization. -/
def contReq (r : Request) : Bool :=
  r.absolute && r.params.isEmpty && decide (r.trailing = some false)

/-- Once the Bitbucket loop state is a continuation state, every request the
rest of the run issues is a continuation request. -/
lemma bbLoop_all_contReq (server : Nat → LinkPage) (data : Option Json)
    (flags : Option (List String)) :
    ∀ (fuel i : Nat) (st : BBState), st.absolute = true → st.params = [] →
      st.trailing = some false →
      (bbLoop server false data flags fuel i st).1.all contReq = true := by
  intro fuel
  induction fuel with
  | zero => intro i st _ _ _; simp [bbLoop]
  | succ n ih =>
    intro i st habs hpar htr
    have hreq : contReq (mkReq st data flags) = true := by
      simp [contReq, mkReq, habs, hpar, htr]
    by_cases h0 : (server i).values.length = 0
    · rw [bbLoop_succ_empty h0]
      simp [hreq]
    · cases hnext : (server i).next with
      | none =>
        rw [bbLoop_succ_none h0 hnext]
        simp [hreq]
      | some u =>
        rw [bbLoop_succ_next h0 hnext]
        have hrest := ih (i + 1) (contState u) rfl rfl rfl
        simp [hreq, hrest]

/-- Without the paging workaround, every request after the first is a
continuation request (absolute, empty params, trailing disabled). -/
lemma bbLoop_tail_contReq (server : Nat → LinkPage) (data : Option Json)
    (flags : Option (List String)) :
    ∀ (fuel i : Nat) (st : BBState),
      (bbLoop server false data flags fuel i st).1.tail.all contReq = true := by
  intro fuel i st
  cases fuel with
  | zero => simp [bbLoop]
  | succ n =>
    by_cases h0 : (server i).values.length = 0
    · rw [bbLoop_succ_empty h0]; simp
    · cases hnext : (server i).next with
      | none => rw [bbLoop_succ_none h0 hnext]; simp
      | some u =>
        rw [bbLoop_succ_next h0 hnext]
        have hrest := bbLoop_all_contReq server data flags n (i + 1)
          (contState u) rfl rfl rfl
        simpa using hrest

/-- Reading a dict after an update: the written key holds the new value,
every other key is untouched. -/
lemma dictGet_dictSet (d : List (String × Json)) (k k' : String) (v : Json) :
    dictGet (dictSet d k v) k' = if k' = k then some v else dictGet d k' := by
  induction d with
  | nil =>
    by_cases h : k' = k
    · subst h; simp [dictGet, dictSet]
    · have h2 : ¬ k = k' := fun hh => h hh.symm
      simp [dictGet, dictSet, h, h2]
  | cons p t ih =>
    by_cases hp : p.1 = k
    · by_cases h : k' = k
      · subst h; simp [dictGet, dictSet, hp]
      · have h2 : ¬ k = k' := fun hh => h hh.symm
        simp [dictGet, dictSet, hp, h, h2]
    · by_cases hh : p.1 = k'
      · have hk' : ¬ k' = k := fun he => hp (hh.trans he)
        simp [dictGet, dictSet, hp, hh, hk']
      · simp [dictGet, dictSet, hp, hh, ih]

/-- The stopping condition of the offset-based loop, read off the current
envelope: `isLast` is set, or the page is empty, or no `nextPage` URL. -/
def offsetStops (pg : OffsetPage) : Prop :=
  pg.isLast = true ∨ pg.values = [] ∨ pg.nextPage = none

/-- Concatenation of the `values` arrays of pages `i, i+1, ..., i+d`. -/
def joinVals (server : Nat → OffsetPage) (i : Nat) : Nat → List String
  | 0 => (server i).values
  | d + 1 => (server i).values ++ joinVals server (i + 1) d

/-- Exact run of the offset-based loop: if page `i + d` is the first page
(from `i` on) satisfying the stopping condition, the loop issues exactly
`d + 1` requests and yields the concatenation of the values of pages
`i .. i + d`, the stopping page's values included. -/
lemma jiraLoop_run_exact (server : Nat → OffsetPage) (data : Option Json)
    (flags : Option (List String)) :
    ∀ (fuel d i : Nat) (st : BBState), offsetStops (server (i + d)) →
      (∀ e, e < d → ¬ offsetStops (server (i + e))) → d < fuel →
      (jiraLoop server data flags fuel i st).1.length = d + 1 ∧
      (jiraLoop server data flags fuel i st).2 = joinVals server i d := by
  intro fuel
  induction fuel with
  | zero => intro d i st _ _ h; exact absurd h (Nat.not_lt_zero d)
  | succ n ih =>
    intro d i st hstop hpre hfuel
    cases d with
    | zero =>
      rw [Nat.add_zero] at hstop
      rcases hstop with hl | hv | hn
      · rw [jiraLoop_succ_stop (Or.inl hl)]
        simp [joinVals]
      · rw [jiraLoop_succ_stop (Or.inr (by rw [hv]; rfl))]
        simp [joinVals]
      · by_cases hc : (server i).isLast = true ∨ (server i).values.length = 0
        · rw [jiraLoop_succ_stop hc]; simp [joinVals]
        · rw [jiraLoop_succ_none hc hn]; simp [joinVals]
    | succ e =>
      have hne := hpre 0 (Nat.succ_pos e)
      rw [Nat.add_zero] at hne
      have hc : ¬ ((server i).isLast = true ∨ (server i).values.length = 0) := by
        rintro (hl | hv)
        · exact hne (Or.inl hl)
        · exact hne (Or.inr (Or.inl (List.length_eq_zero.mp hv)))
      have hn : ∃ u, (server i).nextPage = some u := by
        cases hnp : (server i).nextPage with
        | none => exact absurd (Or.inr (Or.inr hnp)) hne
        | some u => exact ⟨u, rfl⟩
      rcases hn with ⟨u, hu⟩
      have hrec := ih e (i + 1) (contState u)
        (by rw [show i + 1 + e = i + (e + 1) from by omega]; exact hstop)
        (fun e' he' => by
          rw [show i + 1 + e' = i + (e' + 1) from by omega]
          exact hpre (e' + 1) (Nat.succ_lt_succ he'))
        (Nat.lt_of_succ_lt_succ hfuel)
      rw [jiraLoop_succ_cont hc hu]
      refine ⟨by simp [hrec.1], ?_⟩
      simp [joinVals, hrec.2]

/-- For both values of `paging_workaround`: if the response to request
`i + d` of a Bitbucket run has an empty `values` array, the run issues at
most `d + 1` requests (the empty page terminates it, whatever its `next`
field says and whatever `fuel` allows). -/
lemma bbLoop_requests_le (server : Nat → LinkPage) (w : Bool)
    (data : Option Json) (flags : Option (List String)) :
    ∀ (fuel d i : Nat) (st : BBState), (server (i + d)).values = [] →
      (bbLoop server w data flags fuel i st).1.length ≤ d + 1 := by
  intro fuel
  induction fuel with
  | zero => intro d i st _; simp [bbLoop]
  | succ n ih =>
    intro d i st hemp
    by_cases h0 : (server i).values.length = 0
    · rw [bbLoop_succ_empty h0]; simp
    · cases d with
      | zero =>
        rw [Nat.add_zero] at hemp
        exact absurd (by rw [hemp]; rfl) h0
      | succ e =>
        have hrec : ∀ st' : BBState,
            (bbLoop server w data flags n (i + 1) st').1.length ≤ e + 1 :=
          fun st' => ih e (i + 1) st'
            (by rw [show i + 1 + e = i + (e + 1) from by omega]; exact hemp)
        cases w with
        | true =>
          rw [bbLoop_succ_workaround h0]
          simpa using Nat.succ_le_succ (hrec _)
        | false =>
          cases hnext : (server i).next with
          | none => rw [bbLoop_succ_none h0 hnext]; simp
          | some u =>
            rw [bbLoop_succ_next h0 hnext]
            simpa using Nat.succ_le_succ (hrec _)

/-- If the response to request `i + d` of an offset-based run has an empty
`values` array, the run issues at most `d + 1` requests, whatever its
`nextPage` field says. -/
lemma jiraLoop_requests_le (server : Nat → OffsetPage) (data : Option Json)
    (flags : Option (List String)) :
    ∀ (fuel d i : Nat) (st : BBState), (server (i + d)).values = [] →
      (jiraLoop server data flags fuel i st).1.length ≤ d + 1 := by
  intro fuel
  induction fuel with
  | zero => intro d i st _; simp [jiraLoop]
  | succ n ih =>
    intro d i st hemp
    by_cases hc : (server i).isLast = true ∨ (server i).values.length = 0
    · rw [jiraLoop_succ_stop hc]; simp
    · cases d with
      | zero =>
        rw [Nat.add_zero] at hemp
        exact absurd (Or.inr (by rw [hemp]; rfl)) hc
      | succ e =>
        cases hnext : (server i).nextPage with
        | none => rw [jiraLoop_succ_none hc hnext]; simp
        | some u =>
          have hrec := ih e (i + 1) (contState u)
            (by rw [show i + 1 + e = i + (e + 1) from by omega]; exact hemp)
          rw [jiraLoop_succ_cont hc hnext]
          simpa using Nat.succ_le_succ hrec

/-- Exact run of the Bitbucket loop with the paging workaround: starting
from a `params` dict whose `page` entry is the number `n`, if page `i + d`
is the first empty page from `i` on, the loop issues exactly `d + 1`
requests, the final `params` dict holds `page = n + d`, and every other key
of `params` is untouched. -/
lemma bbLoop_workaround_run (server : Nat → LinkPage) (data : Option Json)
    (flags : Option (List String)) :
    ∀ (fuel d i : Nat) (st : BBState) (n : Int),
      dictGet st.params "page" = some (.num n) →
      (server (i + d)).values = [] →
      (∀ e, e < d → (server (i + e)).values ≠ []) →
      d < fuel →
      (bbLoop server true data flags fuel i st).1.length = d + 1 ∧
      dictGet (bbLoop server true data flags fuel i st).2.2.params "page" =
        some (.num (n + d)) ∧
      (∀ k, k ≠ "page" →
        dictGet (bbLoop server true data flags fuel i st).2.2.params k =
          dictGet st.params k) := by
  intro fuel
  induction fuel with
  | zero => intro d i st n _ _ _ h; exact absurd h (Nat.not_lt_zero d)
  | succ m ih =>
    intro d i st n hpage hemp hpre hfuel
    cases d with
    | zero =>
      rw [Nat.add_zero] at hemp
      have h0 : (server i).values.length = 0 := by rw [hemp]; rfl
      rw [bbLoop_succ_empty h0]
      refine ⟨rfl, by simpa using hpage, fun k _ => rfl⟩
    | succ e =>
      have hne := hpre 0 (Nat.succ_pos e)
      rw [Nat.add_zero] at hne
      have h0 : ¬ (server i).values.length = 0 := by
        intro h; exact hne (List.length_eq_zero.mp h)
      have hincr : pageIncr st.params = dictSet st.params "page" (.num (n + 1)) := by
        simp [pageIncr, hpage]
      have hpage' :
          dictGet (pageIncr st.params) "page" = some (.num (n + 1)) := by
        rw [hincr, dictGet_dictSet]; simp
      have hrec := ih e (i + 1) { st with params := pageIncr st.params } (n + 1)
        hpage'
        (by rw [show i + 1 + e = i + (e + 1) from by omega]; exact hemp)
        (fun e' he' => by
          rw [show i + 1 + e' = i + (e' + 1) from by omega]
          exact hpre (e' + 1) (Nat.succ_lt_succ he'))
        (Nat.lt_of_succ_lt_succ hfuel)
      rw [bbLoop_succ_workaround h0]
      refine ⟨by simp [hrec.1], ?_, ?_⟩
      · rw [show ((mkReq st data flags ::
            (bbLoop server true data flags m (i + 1)
              { st with params := pageIncr st.params }).1,
            (server i).values ++
              (bbLoop server true data flags m (i + 1)
                { st with params := pageIncr st.params }).2.1,
            (bbLoop server true data flags m (i + 1)
              { st with params := pageIncr st.params }).2.2) :
              List Request × List String × BBState).2.2 =
          (bbLoop server true data flags m (i + 1)
            { st with params := pageIncr st.params }).2.2 from rfl]
        rw [hrec.2.1]
        congr 2
        push_cast
        ring
      · intro k hk
        have hfr := hrec.2.2 k hk
        rw [show ((mkReq st data flags ::
            (bbLoop server true data flags m (i + 1)
              { st with params := pageIncr st.params }).1,
            (server i).values ++
              (bbLoop server true data flags m (i + 1)
                { st with params := pageIncr st.params }).2.1,
            (bbLoop server true data flags m (i + 1)
              { st with params := pageIncr st.params }).2.2) :
              List Request × List String × BBState).2.2 =
          (bbLoop server true data flags m (i + 1)
            { st with params := pageIncr st.params }).2.2 from rfl]
        rw [hfr, hincr, dictGet_dictSet, if_neg hk]

/-! ## Claims -/

/-- C2: link-based happy path.  Given pages
`[(values [a,b], next U1), (values [c], next U2), (values [], next null)]`,
`BitbucketCloudBase._get_paged` (no workaround) yields exactly `[a, b, c]` in
order and issues exactly 3 requests; requests 2 and 3 use the
server-provided URLs `U1` and `U2` verbatim as absolute URLs with empty
query parameters and trailing-slash normalization disabled.  Moreover (second
conjunct) in every run, every request after the first is such a
continuation request, so the absolute treatment is carried forward for every
subsequent page. -/
theorem linkBased_happy_path (a b c U1 U2 url : String)
    (p : List (String × Json)) (data : Option Json)
    (flags : Option (List String)) (trailing : Option Bool) :
    (bb_get_paged
        (fun i => if i = 0 then ⟨[a, b], some U1⟩
                  else if i = 1 then ⟨[c], some U2⟩ else ⟨[], none⟩)
        url (some p) data flags trailing false false 10).1 =
      [{ url := url, params := p, data := data, flags := flags,
         trailing := trailing, absolute := false },
       { url := U1, params := [], data := data, flags := flags,
         trailing := some false, absolute := true },
       { url := U2, params := [], data := data, flags := flags,
         trailing := some false, absolute := true }] ∧
    (bb_get_paged
        (fun i => if i = 0 then ⟨[a, b], some U1⟩
                  else if i = 1 then ⟨[c], some U2⟩ else ⟨[], none⟩)
        url (some p) data flags trailing false false 10).2.1 = [a, b, c] ∧
    (∀ (server : Nat → LinkPage) (fuel i : Nat) (st : BBState),
      (bbLoop server false data flags fuel i st).1.tail.all contReq = true) := by
  refine ⟨rfl, rfl, ?_⟩
  intro server fuel i st
  exact bbLoop_tail_contReq server data flags fuel i st

/-- C3: paging workaround.  With `paging_workaround=True` the fetcher ignores
the server's `next` field entirely (the theorem holds for arbitrary `next`
fields `n0`, `n1`, `n2`, in particular for a server that never returns one)
and advances via a manually incremented `page` parameter starting at 1:
for pages of sizes [2,2,0] exactly 3 requests are issued, with `page`
equal to 1, 2, 3 respectively, and exactly 4 items are yielded. -/
theorem linkBased_paging_workaround (a b c d url : String)
    (n0 n1 n2 : Option String) (data : Option Json)
    (flags : Option (List String)) (trailing : Option Bool) (absolute : Bool) :
    ((bb_get_paged
        (fun i => if i = 0 then ⟨[a, b], n0⟩
                  else if i = 1 then ⟨[c, d], n1⟩ else ⟨[], n2⟩)
        url none data flags trailing absolute true 10).1.map
      (fun q => dictGet q.params "page")) =
      [some (.num 1), some (.num 2), some (.num 3)] ∧
    (bb_get_paged
        (fun i => if i = 0 then ⟨[a, b], n0⟩
                  else if i = 1 then ⟨[c, d], n1⟩ else ⟨[], n2⟩)
        url none data flags trailing absolute true 10).2.1 = [a, b, c, d] := by
  exact ⟨rfl, rfl⟩

/-- C5: token-based pagination.  Given responses
`(issues [a], nextPageToken "T1")` then `(issues [b], nextPageToken null)`,
`enhanced_jql_get_list_of_tickets` returns `[a, b]`, issues exactly 2
requests, the first request carries no `nextPageToken` parameter and the
second request's `nextPageToken` parameter equals `"T1"`. -/
theorem tokenBased_pagination (a b url jql fields : String) :
    (enhanced_jql_get_list_of_tickets true
        (fun i => if i = 0 then some ⟨[a], some "T1"⟩ else some ⟨[b], none⟩)
        url jql fields none none 10).items = [a, b] ∧
    ((enhanced_jql_get_list_of_tickets true
        (fun i => if i = 0 then some ⟨[a], some "T1"⟩ else some ⟨[b], none⟩)
        url jql fields none none 10).requests.map
      (fun q => dictGet q.params "nextPageToken")) =
      [none, some (.str "T1")] := by
  exact ⟨rfl, rfl⟩

/-- C6: cross-style isolation.  On a client flagged non-Cloud, both
`Jira._get_paged` (offset-based) and `enhanced_jql_get_list_of_tickets`
(token-based) raise a `ValueError` (a configuration error, distinct from the
embedding's HTTP/runtime error kind) and zero requests reach the transport,
for every server, parameter set and fuel. -/
theorem nonCloud_raises_before_any_request (serverO : Nat → OffsetPage)
    (serverT : Nat → Option TokenPage) (url1 url2 jql fields : String)
    (params? : Option (List (String × Json))) (data : Option Json)
    (flags : Option (List String)) (trailing : Option Bool) (absolute : Bool)
    (limit : Option Nat) (expand : Option String) (fuel1 fuel2 : Nat) :
    jira_get_paged false serverO url1 params? data flags trailing absolute
        fuel1 =
      { requests := [], items := [],
        error := some (.valueError
          "``_get_paged`` method is only available for Jira Cloud platform") } ∧
    enhanced_jql_get_list_of_tickets false serverT url2 jql fields limit
        expand fuel2 =
      { requests := [], items := [],
        error := some (.valueError
          "``enhanced_jql_get_list_of_tickets`` is only available for Jira Cloud.") } := by
  exact ⟨rfl, rfl⟩

/-- C4: the offset-based fetcher terminates exactly at the first page whose
envelope satisfies `isLast = true`, or has an empty item array, or lacks a
`nextPage` URL — after yielding that page's items: it issues exactly `n + 1`
requests and yields the concatenation of the values of pages `0 .. n`, where
`n` is the first stopping index.  In particular, given
`(values [x], isLast true)` as the first response it yields `[x]` and issues
exactly 1 request (see the witness). -/
theorem offsetBased_stops_exactly_at_first_signal (server : Nat → OffsetPage)
    (url : String) (params? : Option (List (String × Json)))
    (data : Option Json) (flags : Option (List String))
    (trailing : Option Bool) (absolute : Bool) (n fuel : Nat)
    (hstop : offsetStops (server n))
    (hfirst : ∀ j, j < n → ¬ offsetStops (server j))
    (hfuel : n < fuel) :
    (jira_get_paged true server url params? data flags trailing absolute
        fuel).requests.length = n + 1 ∧
    (jira_get_paged true server url params? data flags trailing absolute
        fuel).items = joinVals server 0 n := by
  have h := jiraLoop_run_exact server data flags fuel n 0
    { url := url, params := params?.getD [], trailing := trailing,
      absolute := absolute }
    (by rw [Nat.zero_add]; exact hstop)
    (fun e he => by rw [Nat.zero_add]; exact hfirst e he) hfuel
  exact ⟨h.1, h.2⟩

/-- C4 witness: first response `(values [x], isLast true, nextPage "N")`:
the fetcher yields `["x"]` and issues exactly 1 request. -/
theorem offsetBased_stops_exactly_at_first_signal_witness :
    (jira_get_paged true (fun _ => ⟨["x"], true, some "N"⟩) "u" none none none
        none false 1).requests.length = 1 ∧
    (jira_get_paged true (fun _ => ⟨["x"], true, some "N"⟩) "u" none none none
        none false 1).items = ["x"] :=
  offsetBased_stops_exactly_at_first_signal (fun _ => ⟨["x"], true, some "N"⟩)
    "u" none none none none false 0 1 (Or.inl rfl)
    (fun j hj => absurd hj (Nat.not_lt_zero j)) Nat.zero_lt_one

/-- C1 (amended): for the link-based fetcher (with or without the paging
workaround) and the offset-based fetcher, a page with an empty item array is
terminal: if the response to request `i` (resp. `k`) has empty `values`, at
most `i + 1` (resp. `k + 1`) requests are ever issued, regardless of any
`next`/`nextPage` indicator in that envelope and for every fuel.  The
token-based fetcher does not have this property: see the counterexample
theorem, it keeps requesting past an empty `issues` array whenever
`nextPageToken` is truthy and no limit is reached. -/
theorem emptyPage_terminal_linkBased_and_offsetBased
    (serverB : Nat → LinkPage) (serverO : Nat → OffsetPage) (w : Bool)
    (urlB urlO : String) (pB? pO? : Option (List (String × Json)))
    (dataB dataO : Option Json) (flagsB flagsO : Option (List String))
    (trailingB trailingO : Option Bool) (absB absO : Bool)
    (i k fuelB fuelO : Nat)
    (hB : (serverB i).values = []) (hO : (serverO k).values = []) :
    (bb_get_paged serverB urlB pB? dataB flagsB trailingB absB w
        fuelB).1.length ≤ i + 1 ∧
    (jira_get_paged true serverO urlO pO? dataO flagsO trailingO absO
        fuelO).requests.length ≤ k + 1 := by
  constructor
  · exact bbLoop_requests_le serverB w dataB flagsB fuelB i 0 _
      (by rw [Nat.zero_add]; exact hB)
  · exact jiraLoop_requests_le serverO dataO flagsO fuelO k 0 _
      (by rw [Nat.zero_add]; exact hO)

/-- C1 witness: self-contradictory envelopes (zero items, next indicator
present) on both styles: at most one request is issued. -/
theorem emptyPage_terminal_linkBased_and_offsetBased_witness :
    (bb_get_paged (fun _ => ⟨[], some "U"⟩) "u" none none none none false
        false 5).1.length ≤ 1 ∧
    (jira_get_paged true (fun _ => ⟨[], false, some "N"⟩) "u" none none none
        none false 5).requests.length ≤ 1 :=
  emptyPage_terminal_linkBased_and_offsetBased (fun _ => ⟨[], some "U"⟩)
    (fun _ => ⟨[], false, some "N"⟩) false "u" "u" none none none none none
    none none none false false 0 0 5 5 rfl rfl

/-- C1 counterexample: the token-based fetcher issues a further request after
an envelope with zero items when a next indicator is present — the first
response has `issues = []` and `nextPageToken = "T"`, yet 2 requests are
issued, refuting the invariant for the token-based style. -/
theorem emptyPage_not_terminal_tokenBased :
    ((fun i => if i = 0 then some (⟨[], some "T"⟩ : TokenPage)
               else some ⟨[], none⟩) 0) = some ⟨[], some "T"⟩ ∧
    (enhanced_jql_get_list_of_tickets true
        (fun i => if i = 0 then some ⟨[], some "T"⟩ else some ⟨[], none⟩)
        "u" "q" "*all" none none 3).requests.length = 2 :=
  ⟨rfl, rfl⟩

/-- C7 (amended): for every response with status in `[400, 600)` whose body
is a JSON object with `error.message`, `raise_for_status` raises the
normalized error with the original response attached; the `detail` field is
appended to the message, newline-separated via interpolation, exactly when it
is present and truthy (the source tests `e.get("detail")` for truthiness,
not mere presence): a present-but-falsy `detail` is not appended. -/
theorem raise_for_status_normalizes (s : Nat) (j e : List (String × Json))
    (msg : Json) (h4 : 400 ≤ s) (h6 : s < 600)
    (hj : dictGet j "error" = some (.obj e))
    (hm : dictGet e "message" = some msg) :
    (∀ d : Json, dictGet e "detail" = some d → d.truthy = true →
      raise_for_status ⟨s, some (.obj j)⟩ =
        .normalized (.str (msg.pyStr ++ "\n" ++ d.pyStr)) ⟨s, some (.obj j)⟩) ∧
    (dictGet e "detail" = none →
      raise_for_status ⟨s, some (.obj j)⟩ =
        .normalized msg ⟨s, some (.obj j)⟩) ∧
    (∀ d : Json, dictGet e "detail" = some d → d.truthy = false →
      raise_for_status ⟨s, some (.obj j)⟩ =
        .normalized msg ⟨s, some (.obj j)⟩) := by
  refine ⟨?_, ?_, ?_⟩
  · intro d hd ht
    simp [raise_for_status, extractErrorMsg, hj, hm, hd, ht, h4, h6]
  · intro hd
    simp [raise_for_status, extractErrorMsg, hj, hm, hd, h4, h6]
  · intro d hd ht
    simp [raise_for_status, extractErrorMsg, hj, hm, hd, ht, h4, h6]

/-- C7 witness: body `error.message = "Bad"`, truthy `error.detail = "extra"`,
status 400: the normalized error carries message `"Bad\nextra"` (literal
newline) and the original response. -/
theorem raise_for_status_normalizes_witness :
    raise_for_status
        ⟨400, some (.obj [("error",
          .obj [("message", .str "Bad"), ("detail", .str "extra")])])⟩ =
      .normalized (.str "Bad\nextra")
        ⟨400, some (.obj [("error",
          .obj [("message", .str "Bad"), ("detail", .str "extra")])])⟩ :=
  (raise_for_status_normalizes 400
      [("error", .obj [("message", .str "Bad"), ("detail", .str "extra")])]
      [("message", .str "Bad"), ("detail", .str "extra")]
      (.str "Bad") (by decide) (by decide) rfl rfl).1
    (.str "extra") rfl rfl

/-- C7 counterexample: with `error.message = "Bad"` and a present but empty
`error.detail = ""`, the raised message is `"Bad"`, not the
newline-appended `"Bad" ++ "\n" ++ ""` the claim's "whenever present"
wording requires. -/
theorem errorDetail_present_but_falsy_not_appended :
    raise_for_status
        ⟨400, some (.obj [("error",
          .obj [("message", .str "Bad"), ("detail", .str "")])])⟩ =
      .normalized (.str "Bad")
        ⟨400, some (.obj [("error",
          .obj [("message", .str "Bad"), ("detail", .str "")])])⟩ ∧
    Json.str "Bad" ≠ Json.str ("Bad" ++ "\n" ++ "") := by
  refine ⟨rfl, ?_⟩
  intro h
  injection h with h2
  exact absurd h2 (by decide)

/-- C8: for every response with status in `[400, 600)` on which the `try`
block fails (undecodable body, or `error.message` not extractable),
`raise_for_status` delegates to the transport's standard raise-on-error
behavior, which raises the generic HTTP error there: it never raises the
normalized error, never propagates the parse failure, and never returns
normally on this path. -/
theorem raise_for_status_fallback_on_parse_failure (resp : HttpResponse)
    (h4 : 400 ≤ resp.status_code) (h6 : resp.status_code < 600)
    (hx : extractErrorMsg resp.body = none) :
    raise_for_status resp = .fallback ∧
    raise_for_status resp = transportRaiseForStatus resp.status_code := by
  have h : raise_for_status resp = transportRaiseForStatus resp.status_code := by
    simp [raise_for_status, hx, h4, h6]
  have h2 : transportRaiseForStatus resp.status_code = .fallback := by
    simp [transportRaiseForStatus, h4, h6]
  exact ⟨h.trans h2, h⟩

/-- C8 witness: a 500 response with an undecodable body falls back to the
transport's generic raise. -/
theorem raise_for_status_fallback_witness :
    raise_for_status ⟨500, none⟩ = .fallback ∧
    raise_for_status ⟨500, none⟩ = transportRaiseForStatus 500 :=
  raise_for_status_fallback_on_parse_failure ⟨500, none⟩ (by decide)
    (by decide) rfl

/-- C9: with `paging_workaround=True` and a caller-supplied `params` dict
`p`, the fetcher works on that dict in place (modelled as explicit state):
`page` is set to 1 before the first request and incremented after each
non-empty page, so once the generator is consumed (first empty page at index
`i`), the dict holds `page = 1 + i` — the final page number, equal to the
number of requests issued — and no key other than `"page"` is modified. -/
theorem workaround_mutates_params_in_place (server : Nat → LinkPage)
    (url : String) (p : List (String × Json)) (data : Option Json)
    (flags : Option (List String)) (trailing : Option Bool) (absolute : Bool)
    (i fuel : Nat) (hemp : (server i).values = [])
    (hfirst : ∀ j, j < i → (server j).values ≠ []) (hfuel : i < fuel) :
    (bb_get_paged server url (some p) data flags trailing absolute true
        fuel).1.length = i + 1 ∧
    dictGet (bb_get_paged server url (some p) data flags trailing absolute
        true fuel).2.2.params "page" = some (.num (1 + i)) ∧
    (∀ k, k ≠ "page" →
      dictGet (bb_get_paged server url (some p) data flags trailing absolute
          true fuel).2.2.params k = dictGet p k) := by
  have hpage : dictGet (dictSet p "page" (.num 1)) "page" =
      some (.num 1) := by rw [dictGet_dictSet]; simp
  have h := bbLoop_workaround_run server data flags fuel i 0
    { url := url, params := dictSet p "page" (.num 1), trailing := trailing,
      absolute := absolute } 1 hpage
    (by rw [Nat.zero_add]; exact hemp)
    (fun e he => by rw [Nat.zero_add]; exact hfirst e he) hfuel
  refine ⟨h.1, h.2.1, ?_⟩
  intro k hk
  exact (h.2.2 k hk).trans (by rw [dictGet_dictSet, if_neg hk])

/-- C9 witness: pages of sizes [1, 0] and caller params `("q", "x")`: two
requests are issued, afterwards the dict holds `page = 2` and the `"q"`
entry is untouched. -/
theorem workaround_mutates_params_in_place_witness :
    (bb_get_paged (fun j => if j = 0 then ⟨["a"], none⟩ else ⟨[], none⟩) "u"
        (some [("q", .str "x")]) none none none false true 3).1.length = 2 ∧
    dictGet (bb_get_paged (fun j => if j = 0 then ⟨["a"], none⟩
        else ⟨[], none⟩) "u" (some [("q", .str "x")]) none none none false
        true 3).2.2.params "page" = some (.num 2) ∧
    dictGet (bb_get_paged (fun j => if j = 0 then ⟨["a"], none⟩
        else ⟨[], none⟩) "u" (some [("q", .str "x")]) none none none false
        true 3).2.2.params "q" = some (.str "x") := by
  have h := workaround_mutates_params_in_place
    (fun j => if j = 0 then ⟨["a"], none⟩ else ⟨[], none⟩) "u"
    [("q", .str "x")] none none none false 1 3 rfl
    (fun j hj => by
      have hj0 : j = 0 := by omega
      subst hj0; simp) (by decide)
  exact ⟨h.1, h.2.1, (h.2.2 "q" (by decide)).trans rfl⟩

/-- C10: `enhanced_jql_get_list_of_tickets` does not truncate its result to
`limit`: whenever the first page alone reaches the limit it stops after
exactly one request (even with fuel left and a truthy token), yet returns
that page's full issue list — so when the page is strictly longer than the
limit, so is the returned list (see the witness). -/
theorem ejql_limit_does_not_truncate (l : Nat) (p : TokenPage)
    (url jql fields : String) (hl : l ≤ p.issues.length) :
    (enhanced_jql_get_list_of_tickets true (fun _ => some p) url jql fields
        (some l) none 2).requests.length = 1 ∧
    (enhanced_jql_get_list_of_tickets true (fun _ => some p) url jql fields
        (some l) none 2).items = p.issues := by
  simp [enhanced_jql_get_list_of_tickets, ejqlLoop, hl]

/-- C10 witness: limit 1, first page `issues = [a, b]` with a truthy token:
one request, and both items are returned — 2 items, strictly more than the
limit 1. -/
theorem ejql_limit_does_not_truncate_witness :
    1 ≤ 2 ∧
    ((enhanced_jql_get_list_of_tickets true
        (fun _ => some ⟨["a", "b"], some "T"⟩) "u" "q" "f" (some 1) none
        2).requests.length = 1 ∧
      (enhanced_jql_get_list_of_tickets true
        (fun _ => some ⟨["a", "b"], some "T"⟩) "u" "q" "f" (some 1) none
        2).items = ["a", "b"]) ∧
    1 < 2 :=
  ⟨by decide,
   ejql_limit_does_not_truncate 1 ⟨["a", "b"], some "T"⟩ "u" "q" "f"
     (by decide),
   by decide⟩

end Atlassian
